import Mathlib

/-!
# Verification of the pinproxy request pipeline

Shallow embedding of the custom logic of `src/main.rs` (a Pingora-based
HTTP proxy): the routing policy `upstream_peer`, the outbound header
filter `upstream_request_filter`, the inbound header filter
`response_filter`, and the completion-logging hook `logging`.

Strings are modelled as `List Char`; raw header bytes as `List Nat`.
-/

set_option autoImplicit false

namespace Pinproxy

/-! ## Routing policy (`upstream_peer`, src/main.rs lines 31-61) -/

/-- Models Rust `str::split(':')` via an auxiliary right fold: the first
component is the segment before the first `c`, the second the remaining
segments.  `splitChar` below glues them into the full list of segments. -/
def splitCharAux (c : Char) : List Char → List Char × List (List Char)
  | [] => ([], [])
  | x :: xs =>
    let r := splitCharAux c xs
    if x == c then ([], r.1 :: r.2) else (x :: r.1, r.2)

/-- `host.split(c).collect::<Vec<_>>()`: the list of segments of `l`
separated by `c` (always nonempty, like Rust's `split`). -/
def splitChar (c : Char) (l : List Char) : List (List Char) :=
  (splitCharAux c l).1 :: (splitCharAux c l).2

/-- Models Rust `str::contains(c)` for a single char. -/
def hasChar (c : Char) (l : List Char) : Bool :=
  l.any (fun x => x == c)

/-- Models Rust `str::parse::<u16>()`: an optional leading `+`, then one
or more ASCII digits, value at most `65535`; `none` on any failure. -/
def parseU16 (s : List Char) : Option Nat :=
  let ds := if s.head? == some '+' then s.tail else s
  if ds.isEmpty then none
  else if ds.all (fun ch => ch.isDigit) then
    let n := ds.foldl (fun acc ch => acc * 10 + (ch.toNat - 48)) 0
    if n ≤ 65535 then some n else none
  else none

/-- The upstream target built by `HttpPeer::new((hostname, port), false,
hostname.to_string())`. -/
structure HttpPeerT where
  hostname : List Char
  port : Nat
  tls : Bool
  sni : List Char
  deriving DecidableEq

/-- Models `http::HeaderValue::to_str`: succeeds iff every byte is
visible ASCII (32..126) or horizontal tab (9). -/
def toStrOk (bs : List Nat) : Bool :=
  bs.all (fun b => (32 ≤ b && b < 127) || b == 9)

/-- The `session.req_header().headers.get("Host").and_then(|h| h.to_str().ok())
.unwrap_or("example.com:80")` chain: the host string used by the routing
policy, from the raw Host header bytes (if any). -/
def hostFromHeader (h : Option (List Nat)) : List Char :=
  match h with
  | none => "example.com:80".toList
  | some bs => if toStrOk bs then bs.map Char.ofNat else "example.com:80".toList

/-- The host/port parsing and peer construction of `upstream_peer`
(src/main.rs lines 47-58).  The vector indexings `parts[0]` / `parts[1]`
are modelled with `getElem?`; `none` models an out-of-bounds panic. -/
def resolveHost (host : List Char) : Option HttpPeerT :=
  if hasChar ':' host then
    let parts := splitChar ':' host
    match parts[0]?, parts[1]? with
    | some h, some p =>
        some { hostname := h, port := (parseU16 p).getD 80, tls := false, sni := h }
    | _, _ => none
  else
    some { hostname := host, port := 80, tls := false, sni := host }

/-- The whole routing policy: header extraction followed by parsing. -/
def upstream_peer (h : Option (List Nat)) : Option HttpPeerT :=
  resolveHost (hostFromHeader h)

/-! ## Header maps

Request/response headers are an ordered multimap: a list of
(name, value) pairs, names compared case-insensitively (ASCII), as in
`http::HeaderMap`. -/

/-- One header: (name, value). -/
abbrev Header := List Char × List Char

/-- Case-insensitive ASCII equality of header names. -/
def nameEq (a b : List Char) : Bool :=
  a.map Char.toLower == b.map Char.toLower

/-- Models `HeaderMap::remove` (as used by pingora's `remove_header`):
drops every pair whose name matches `n` case-insensitively, keeping all
other pairs in order. -/
def removeHeader (n : List Char) : List Header → List Header
  | [] => []
  | kv :: rest =>
    if nameEq kv.1 n then removeHeader n rest else kv :: removeHeader n rest

/-- Models `HeaderMap::insert` (as used by pingora's `insert_header`):
if a matching name exists, the first occurrence is replaced by
`(n, v)` in place and every further occurrence is dropped; otherwise
`(n, v)` is appended at the end. -/
def insertHeader (n v : List Char) : List Header → List Header
  | [] => [(n, v)]
  | kv :: rest =>
    if nameEq kv.1 n then (n, v) :: removeHeader n rest
    else kv :: insertHeader n v rest

/-- Valid `http::HeaderName` byte (token chars; letters are accepted and
lowercased by `HeaderName::from_bytes`). -/
def isTokenChar (c : Char) : Bool :=
  c.isAlphanum ||
    c == '!' || c == '#' || c == '$' || c == '%' || c == '&' ||
    c == '\'' || c == '*' || c == '+' || c == '-' || c == '.' ||
    c == '^' || c == '_' || c.toNat == 96 || c == '|' || c == '~'

/-- Models `HeaderName::try_from(&str)`: nonempty, all token chars. -/
def validHeaderName (s : List Char) : Bool :=
  !s.isEmpty && s.all isTokenChar

/-- Models `HeaderValue::try_from(&str)`: every char visible ASCII or tab. -/
def validHeaderValue (s : List Char) : Bool :=
  s.all (fun c => (32 ≤ c.toNat && c.toNat < 127) || c.toNat == 9)

/-! ## Outbound header filter (`upstream_request_filter`, lines 63-72) -/

/-- `upstream_request.remove_header("Proxy-Connection")`. -/
def upstream_request_filter (hs : List Header) : List Header :=
  removeHeader "Proxy-Connection".toList hs

/-! ## Inbound header filter (`response_filter`, lines 74-85) -/

/-- `upstream_response.insert_header("X-Proxy-Server", "pinproxy")`:
the name/value conversions are fallible (`none` models the `unwrap`
panic on the error path); on success `HeaderMap::insert` runs. -/
def response_filter (hs : List Header) : Option (List Header) :=
  if validHeaderName "X-Proxy-Server".toList &&
     validHeaderValue "pinproxy".toList then
    some (insertHeader "X-Proxy-Server".toList "pinproxy".toList hs)
  else none

/-! ## Completion logging (`logging`, lines 87-104) -/

/-- Pingora's `SocketAddr`: either an inet address (of an abstract type
`α`, the `std::net::SocketAddr` payload) or a unix path address. -/
inductive SocketAddrM (α : Type) where
  | inet (a : α)
  | unix (path : String)
  deriving DecidableEq

/-- Pingora's `SocketAddr::from_str`: try the std inet parser
(abstracted as `inetParse`); on failure fall back to
`unix::SocketAddr::from_pathname`, which fails only when the path
contains a NUL byte or exceeds the `sun_path` capacity. -/
def socketAddrFromStr {α : Type} (inetParse : String → Option α)
    (s : String) : Option (SocketAddrM α) :=
  match inetParse s with
  | some a => some (SocketAddrM.inet a)
  | none =>
    if s.toList.all (fun ch => ch.toNat != 0) && s.toList.length < 108 then
      some (SocketAddrM.unix s)
    else none

/-- An `http::StatusCode`: its numeric value is always in 100..999. -/
structure StatusCode where
  code : Nat
  lower : 100 ≤ code
  upper : code ≤ 999

/-- The session data read by the logging hook: client address (if any),
request method and URI, and the response written to the client (if any). -/
structure SessionInfo (α : Type) where
  clientAddr : Option (SocketAddrM α)
  method : String
  uri : String
  responseWritten : Option StatusCode

/-- One completion log line: client address, method, URI, status. -/
structure LogRecord (α : Type) where
  clientAddr : SocketAddrM α
  method : String
  uri : String
  status : Nat
  deriving DecidableEq

/-- The `logging` hook.  Rust's `unwrap_or` evaluates its argument
eagerly, so `"unknown".parse().unwrap()` runs on every call; `none`
models that `unwrap` panicking.  The status is
`response_written().map(|r| r.status.as_u16()).unwrap_or(0)`. -/
def logging {α : Type} (inetParse : String → Option α)
    (s : SessionInfo α) : Option (LogRecord α) :=
  match socketAddrFromStr inetParse "unknown" with
  | none => none
  | some fallback =>
    some { clientAddr := s.clientAddr.getD fallback
           method := s.method
           uri := s.uri
           status := match s.responseWritten with
                     | some r => r.code
                     | none => 0 }

/-! ## Lemmas about `splitChar` -/

theorem splitCharAux_fst (c : Char) (l : List Char) :
    (splitCharAux c l).1 = l.takeWhile (fun x => x != c) := by
  induction l with
  | nil => rfl
  | cons x xs ih =>
    by_cases hx : x = c
    · simp [splitCharAux, hx, List.takeWhile_cons]
    · simp [splitCharAux, hx, List.takeWhile_cons, ih]

theorem splitCharAux_snd_head (c : Char) (l : List Char)
    (h : hasChar c l = true) :
    (splitCharAux c l).2.head? =
      some (((l.dropWhile (fun x => x != c)).drop 1).takeWhile
              (fun x => x != c)) := by
  induction l with
  | nil => simp [hasChar] at h
  | cons x xs ih =>
    by_cases hx : x = c
    · simp [splitCharAux, hx, List.dropWhile_cons, splitCharAux_fst,
        List.drop_one]
    · have h' : hasChar c xs = true := by
        simpa [hasChar, hx] using h
      simp [splitCharAux, hx, List.dropWhile_cons, ih h', List.drop_one]

/-- Characterization of `resolveHost` on inputs containing a colon:
hostname is the text before the first colon, and the parsed port text is
the text strictly between the first and second colons. -/
theorem resolveHost_of_hasChar (host : List Char)
    (h : hasChar ':' host = true) :
    resolveHost host =
      some { hostname := host.takeWhile (fun x => x != ':')
             port := (parseU16 (((host.dropWhile (fun x => x != ':')).drop 1).takeWhile
                        (fun x => x != ':'))).getD 80
             tls := false
             sni := host.takeWhile (fun x => x != ':') } := by
  have h0 : (splitChar ':' host)[0]? = some (host.takeWhile (fun x => x != ':')) := by
    simp [splitChar, splitCharAux_fst]
  have h1 : (splitChar ':' host)[1]? =
      some (((host.dropWhile (fun x => x != ':')).drop 1).takeWhile
              (fun x => x != ':')) := by
    have := splitCharAux_snd_head ':' host h
    simpa [splitChar, List.getElem?_cons_succ, ← List.head?_eq_getElem?] using this
  simp only [resolveHost, h, if_true]
  rw [h0, h1]

/-! ## Lemmas about `parseU16` and colon-free segments -/

theorem no_colon_of_digits (l : List Char)
    (h : l.all (fun ch => ch.isDigit) = true) : hasChar ':' l = false := by
  induction l with
  | nil => rfl
  | cons x xs ih =>
    simp only [List.all_cons, Bool.and_eq_true] at h
    have hx : ¬x = ':' := by
      intro he
      rw [he] at h
      exact absurd h.1 (by decide)
    have h2 := ih h.2
    simp only [hasChar] at h2 ⊢
    simp [hx, h2]

theorem parseU16_no_colon (s : List Char) (p : Nat)
    (h : parseU16 s = some p) : hasChar ':' s = false := by
  simp only [parseU16] at h
  by_cases hh : (s.head? == some '+') = true
  · simp only [hh, if_true] at h
    have hs : s = '+' :: s.tail := by
      cases s with
      | nil => simp at hh
      | cons x xs =>
        simp only [List.head?_cons, Option.some.injEq, beq_iff_eq] at hh
        simp [hh]
    have hall : s.tail.all (fun ch => ch.isDigit) = true := by
      by_cases he : s.tail.isEmpty
      · simp [he] at h
      · by_cases ha : s.tail.all (fun ch => ch.isDigit)
        · exact ha
        · simp [he, ha] at h
    have h2 := no_colon_of_digits s.tail hall
    rw [hs]
    simp only [hasChar, List.any_cons] at h2 ⊢
    simp only [h2, Bool.or_false]
    decide
  · simp only [Bool.not_eq_true] at hh
    simp only [hh, Bool.false_eq_true, if_false] at h
    have hall : s.all (fun ch => ch.isDigit) = true := by
      by_cases he : s.isEmpty
      · simp [he] at h
      · by_cases ha : s.all (fun ch => ch.isDigit)
        · exact ha
        · simp [he, ha] at h
    exact no_colon_of_digits s hall

theorem takeWhile_of_no_char (c : Char) (l : List Char)
    (h : hasChar c l = false) : l.takeWhile (fun x => x != c) = l := by
  induction l with
  | nil => rfl
  | cons x xs ih =>
    simp only [hasChar, List.any_cons, Bool.or_eq_false_iff] at h
    have hx : ¬x = c := by
      intro hc
      rw [hc] at h
      simp at h
    simp only [hasChar] at ih
    simp [List.takeWhile_cons, hx, ih h.2]

theorem takeWhile_append_colon (c : Char) (l r : List Char)
    (h : hasChar c l = false) :
    (l ++ c :: r).takeWhile (fun x => x != c) = l := by
  induction l with
  | nil => simp [List.takeWhile_cons]
  | cons x xs ih =>
    simp only [hasChar, List.any_cons, Bool.or_eq_false_iff] at h
    have hx : ¬x = c := by
      intro hc
      rw [hc] at h
      simp at h
    simp only [hasChar] at ih
    simp [List.takeWhile_cons, hx, ih h.2]

theorem dropWhile_append_colon (c : Char) (l r : List Char)
    (h : hasChar c l = false) :
    (l ++ c :: r).dropWhile (fun x => x != c) = c :: r := by
  induction l with
  | nil => simp [List.dropWhile_cons]
  | cons x xs ih =>
    simp only [hasChar, List.any_cons, Bool.or_eq_false_iff] at h
    have hx : ¬x = c := by
      intro hc
      rw [hc] at h
      simp at h
    simp only [hasChar] at ih
    simp [List.dropWhile_cons, hx, ih h.2]

theorem hasChar_append_colon (c : Char) (l r : List Char) :
    hasChar c (l ++ c :: r) = true := by
  simp [hasChar]

/-! ## Claims about the routing policy -/

/-- C1 counterexample: for the Host value `"a:1:2"` the code parses the
text `"1"` (between the first and second colon) and yields port 1, not
port 80 as the claim predicts for a failed parse of `"1:2"`. -/
theorem C1_counterexample :
    (resolveHost "a:1:2".toList).map HttpPeerT.port = some 1 ∧
      ¬(resolveHost "a:1:2".toList).map HttpPeerT.port = some 80 := by
  decide

/-- C1 (amended): for every Host value containing at least one `:`,
`resolve` returns hostname equal to the substring before the first `:`,
and the port is obtained by parsing the substring strictly between the
first and second `:` (or to the end of the value if there is no second
`:`) as an unsigned 16-bit integer, with port 80 on parse failure. -/
theorem C1_amended (host : List Char) (h : hasChar ':' host = true) :
    resolveHost host =
      some { hostname := host.takeWhile (fun x => x != ':')
             port := (parseU16 (((host.dropWhile (fun x => x != ':')).drop 1).takeWhile
                        (fun x => x != ':'))).getD 80
             tls := false
             sni := host.takeWhile (fun x => x != ':') } :=
  resolveHost_of_hasChar host h

/-- C1 witness: the amended claim instantiated at `"a:1:2"`. -/
theorem C1_amended_witness :
    resolveHost "a:1:2".toList =
      some { hostname := "a".toList, port := 1, tls := false,
             sni := "a".toList } := by
  have h := C1_amended "a:1:2".toList (by decide)
  rw [h]
  decide

/-- C3: for every Host value of the form `host ++ ":" ++ port` where
`host` contains no `:` and `port` parses as an unsigned 16-bit integer,
`resolve` returns the target `(host, port, tls := false)`. -/
theorem C3_host_port (host portStr : List Char) (p : Nat)
    (hhost : hasChar ':' host = false)
    (hport : parseU16 portStr = some p) :
    resolveHost (host ++ ':' :: portStr) =
      some { hostname := host, port := p, tls := false, sni := host } := by
  have hcolon := hasChar_append_colon ':' host portStr
  rw [resolveHost_of_hasChar _ hcolon]
  rw [takeWhile_append_colon ':' host portStr hhost,
      dropWhile_append_colon ':' host portStr hhost]
  simp only [List.drop_one, List.tail_cons]
  rw [takeWhile_of_no_char ':' portStr (parseU16_no_colon portStr p hport),
      hport]
  rfl

/-- C3 witness: Host `"api.internal:9090"` resolves to
`("api.internal", 9090, tls := false)`. -/
theorem C3_witness :
    resolveHost ("api.internal".toList ++ ':' :: "9090".toList) =
      some { hostname := "api.internal".toList, port := 9090,
             tls := false, sni := "api.internal".toList } :=
  C3_host_port "api.internal".toList "9090".toList 9090 (by decide) (by decide)

/-- C6: with no Host header, the routing policy falls back to the fixed
target `("example.com", 80, tls := false)`. -/
theorem C6_fallback :
    upstream_peer none =
      some { hostname := "example.com".toList, port := 80, tls := false,
             sni := "example.com".toList } := by
  decide

/-- C7: for every Host value containing no `:`, `resolve` returns the
target `(value, 80, tls := false)`. -/
theorem C7_no_colon (host : List Char) (h : hasChar ':' host = false) :
    resolveHost host =
      some { hostname := host, port := 80, tls := false, sni := host } := by
  simp [resolveHost, h]

/-- C7 witness: Host `"svc"` resolves to `("svc", 80, tls := false)`. -/
theorem C7_witness :
    resolveHost "svc".toList =
      some { hostname := "svc".toList, port := 80, tls := false,
             sni := "svc".toList } :=
  C7_no_colon "svc".toList (by decide)

/-- The host-parsing stage never panics: both vector indexings after the
split are in bounds and parse failures degrade to port 80, so a
`(hostname, port, tls, sni)` selection is always made. -/
theorem upstream_peer_isSome (h : Option (List Nat)) :
    (upstream_peer h).isSome = true := by
  unfold upstream_peer
  by_cases hc : hasChar ':' (hostFromHeader h) = true
  · rw [resolveHost_of_hasChar _ hc]
    rfl
  · simp only [Bool.not_eq_true] at hc
    simp [resolveHost, hc]

/-- The peer pingora actually holds after `HttpPeer::new`: a resolved
socket address (of an abstract type `α`), the TLS flag and the SNI. -/
structure ResolvedPeer (α : Type) where
  addr : α
  tls : Bool
  sni : List Char
  deriving DecidableEq

/-- Models pingora's `HttpPeer::new((hostname, port), tls, sni)`
(main.rs line 54): `(&str, u16)::to_socket_addrs()` does a blocking
lookup, abstracted as `toSocketAddrs`; `none` on the outer match models
the `to_socket_addrs().unwrap()` panic on a resolution error, `none` on
the empty list models the `.next().unwrap()` panic when no address is
returned. -/
def httpPeerNew {α : Type} (toSocketAddrs : List Char → Nat → Option (List α))
    (hostname : List Char) (port : Nat) (tls : Bool) (sni : List Char) :
    Option (ResolvedPeer α) :=
  match toSocketAddrs hostname port with
  | none => none
  | some [] => none
  | some (a :: _) => some { addr := a, tls := tls, sni := sni }

/-- The whole `upstream_peer` hook including peer construction: the
host-parsing stage selects `(hostname, port, tls, sni)` and
`HttpPeer::new` then resolves that pair; `none` models a panic on
either stage. -/
def upstream_peer_full {α : Type}
    (toSocketAddrs : List Char → Nat → Option (List α))
    (h : Option (List Nat)) : Option (ResolvedPeer α) :=
  match upstream_peer h with
  | none => none
  | some p => httpPeerNew toSocketAddrs p.hostname p.port p.tls p.sni

/-- C9 counterexample: the Host value `":80"` selects the empty
hostname, and under a resolver that fails on the empty hostname (as the
real blocking lookup does) the hook panics inside `HttpPeer::new`
instead of returning a target — so `upstream_peer` is not panic-free
for every Host value. -/
theorem C9_counterexample :
    upstream_peer_full
        (fun (hn : List Char) (_ : Nat) =>
          if hn.isEmpty then (none : Option (List Unit)) else some [()])
        (some (":80".toList.map Char.toNat)) = none ∧
      (upstream_peer (some (":80".toList.map Char.toNat))).map
          HttpPeerT.hostname = some [] := by
  decide

/-- C9 (amended): the host-parsing stage of `upstream_peer` is total —
for every possible Host header (absent, malformed port, empty segments,
any number of colons) every vector index used after splitting on `:` is
in bounds, parse failures degrade to port 80, and a target is always
selected — but the hook as a whole returns a peer without panicking iff
`to_socket_addrs` yields at least one address for the selected
hostname/port pair; on resolution failure `HttpPeer::new` panics. -/
theorem C9_amended {α : Type}
    (toSocketAddrs : List Char → Nat → Option (List α))
    (h : Option (List Nat)) :
    (upstream_peer h).isSome = true ∧
      ∀ p : HttpPeerT, upstream_peer h = some p →
        ((upstream_peer_full toSocketAddrs h).isSome = true ↔
          ∃ a rest, toSocketAddrs p.hostname p.port = some (a :: rest)) := by
  refine ⟨upstream_peer_isSome h, ?_⟩
  intro p hp
  unfold upstream_peer_full httpPeerNew
  rw [hp]
  cases hres : toSocketAddrs p.hostname p.port with
  | none => simp [hres]
  | some l =>
    cases l with
    | nil => simp [hres]
    | cons a rest =>
      simp only [hres]
      constructor
      · intro hsome
        exact ⟨a, rest, rfl⟩
      · intro hex
        rfl

/-- A resolver that always returns one address. -/
def resolverOk : List Char → Nat → Option (List Unit) :=
  fun _ _ => some [()]

/-- C9 witness: the amended claim instantiated at an absent Host header
and an always-succeeding resolver. -/
theorem C9_witness :
    (upstream_peer none).isSome = true ∧
      ∀ p : HttpPeerT, upstream_peer none = some p →
        ((upstream_peer_full resolverOk none).isSome = true ↔
          ∃ a rest, resolverOk p.hostname p.port = some (a :: rest)) :=
  C9_amended resolverOk none

/-- C10: a Host header whose raw bytes are not representable as a string
(some byte outside visible ASCII / tab) is treated exactly like an
absent Host header. -/
theorem C10_invalid_bytes (bs : List Nat) (h : toStrOk bs = false) :
    upstream_peer (some bs) = upstream_peer none := by
  simp [upstream_peer, hostFromHeader, h]

/-- C10 witness: the single byte 200 is not visible ASCII, so the header
value `[200]` resolves to the fallback target. -/
theorem C10_witness :
    upstream_peer (some [200]) = upstream_peer none :=
  C10_invalid_bytes [200] (by decide)

/-! ## Lemmas about the header-map operations -/

theorem nameEq_refl (n : List Char) : nameEq n n = true := by
  simp [nameEq]

theorem removeHeader_all (n : List Char) (hs : List Header) :
    (removeHeader n hs).all (fun kv => !(nameEq kv.1 n)) = true := by
  induction hs with
  | nil => rfl
  | cons kv rest ih =>
    by_cases hkv : nameEq kv.1 n = true
    · simp [removeHeader, hkv, ih]
    · simp only [Bool.not_eq_true] at hkv
      simp [removeHeader, hkv, ih]

theorem removeHeader_eq_filter (n : List Char) (hs : List Header) :
    removeHeader n hs = hs.filter (fun kv => !(nameEq kv.1 n)) := by
  induction hs with
  | nil => rfl
  | cons kv rest ih =>
    by_cases hkv : nameEq kv.1 n = true
    · simp [removeHeader, hkv, ih, List.filter_cons]
    · simp only [Bool.not_eq_true] at hkv
      simp [removeHeader, hkv, ih, List.filter_cons]

theorem removeHeader_id (n : List Char) (hs : List Header)
    (h : hs.all (fun kv => !(nameEq kv.1 n)) = true) :
    removeHeader n hs = hs := by
  induction hs with
  | nil => rfl
  | cons kv rest ih =>
    simp only [List.all_cons, Bool.and_eq_true, Bool.not_eq_true'] at h
    simp [removeHeader, h.1, ih (by simpa using h.2)]

theorem removeHeader_filter_nil (n : List Char) (hs : List Header) :
    (removeHeader n hs).filter (fun kv => nameEq kv.1 n) = [] := by
  induction hs with
  | nil => rfl
  | cons kv rest ih =>
    by_cases hkv : nameEq kv.1 n = true
    · simp [removeHeader, hkv, ih]
    · simp only [Bool.not_eq_true] at hkv
      simp [removeHeader, hkv, ih, List.filter_cons]

theorem insertHeader_filter (n v : List Char) (hs : List Header) :
    (insertHeader n v hs).filter (fun kv => nameEq kv.1 n) = [(n, v)] := by
  induction hs with
  | nil => simp [insertHeader, List.filter_cons, nameEq_refl]
  | cons kv rest ih =>
    by_cases hkv : nameEq kv.1 n = true
    · simp [insertHeader, hkv, List.filter_cons, nameEq_refl,
        removeHeader_filter_nil]
    · simp only [Bool.not_eq_true] at hkv
      simp [insertHeader, hkv, List.filter_cons, ih]

/-! ## Claims about the header filters -/

/-- C5: after the outbound filter, no header named `Proxy-Connection`
(case-insensitively) remains; every other header is kept with its name,
value and relative order; and the filter is a no-op when the header is
absent. -/
theorem C5_remove_proxy_connection (hs : List Header) :
    (upstream_request_filter hs).all
        (fun kv => !(nameEq kv.1 "Proxy-Connection".toList)) = true ∧
      upstream_request_filter hs =
        hs.filter (fun kv => !(nameEq kv.1 "Proxy-Connection".toList)) ∧
      (hs.all (fun kv => !(nameEq kv.1 "Proxy-Connection".toList)) = true →
        upstream_request_filter hs = hs) :=
  ⟨removeHeader_all _ hs, removeHeader_eq_filter _ hs,
    fun h => removeHeader_id _ hs h⟩

/-- C5 witness: a request with `Proxy-Connection: keep-alive` and
`Accept: */*` keeps only `Accept: */*`; a request without
`Proxy-Connection` is untouched. -/
theorem C5_witness :
    upstream_request_filter
        [("Proxy-Connection".toList, "keep-alive".toList),
         ("Accept".toList, "*/*".toList)] =
      [("Accept".toList, "*/*".toList)] ∧
      upstream_request_filter [("Accept".toList, "*/*".toList)] =
        [("Accept".toList, "*/*".toList)] :=
  ⟨((C5_remove_proxy_connection
      [("Proxy-Connection".toList, "keep-alive".toList),
       ("Accept".toList, "*/*".toList)]).2.1).trans (by decide),
    (C5_remove_proxy_connection
      [("Accept".toList, "*/*".toList)]).2.2 (by decide)⟩

/-- C4: the inbound filter always succeeds, and afterwards the header
`X-Proxy-Server` is present exactly once, with the literal value
`pinproxy`, any pre-existing occurrences having been replaced. -/
theorem C4_insert_exactly_once (resp : List Header) :
    (response_filter resp).isSome = true ∧
      ((response_filter resp).getD []).filter
          (fun kv => nameEq kv.1 "X-Proxy-Server".toList) =
        [("X-Proxy-Server".toList, "pinproxy".toList)] := by
  have hc : (validHeaderName "X-Proxy-Server".toList &&
      validHeaderValue "pinproxy".toList) = true := by decide
  have hsome : response_filter resp =
      some (insertHeader "X-Proxy-Server".toList "pinproxy".toList resp) := by
    unfold response_filter
    rw [if_pos hc]
  refine ⟨by rw [hsome]; rfl, ?_⟩
  rw [hsome]
  simpa using insertHeader_filter "X-Proxy-Server".toList "pinproxy".toList resp

/-! ## Claims about the completion-logging hook -/

/-- C2: the logging hook is total: whatever the std inet parser does on
`"unknown"`, the fallback address parse succeeds (the unix-path branch
accepts `"unknown"`), so the hook never panics, for every session —
including sessions with no client address. -/
theorem C2_logging_total {α : Type} (inetParse : String → Option α)
    (s : SessionInfo α) : (logging inetParse s).isSome = true := by
  unfold logging
  cases hi : inetParse "unknown" with
  | some a => simp [socketAddrFromStr, hi]
  | none =>
    have hfb : socketAddrFromStr inetParse "unknown" =
        some (SocketAddrM.unix "unknown") := by
      simp [socketAddrFromStr, hi]
    rw [hfb]
    rfl

/-- C8: the status value passed to the completion log line is 0 iff no
response was written to the client, and otherwise it is the numeric
status code of the written response. -/
theorem C8_status_sentinel {α : Type} (inetParse : String → Option α)
    (s : SessionInfo α) (lr : LogRecord α)
    (h : logging inetParse s = some lr) :
    (lr.status = 0 ↔ s.responseWritten = none) ∧
      (∀ r : StatusCode, s.responseWritten = some r → lr.status = r.code) := by
  unfold logging at h
  cases hfb : socketAddrFromStr inetParse "unknown" with
  | none => rw [hfb] at h; simp at h
  | some fb =>
    rw [hfb] at h
    simp only [Option.some.injEq] at h
    cases hr : s.responseWritten with
    | none =>
      rw [hr] at h
      constructor
      · simp [← h]
      · intro r hrr
        cases hrr
    | some r =>
      rw [hr] at h
      have hst : lr.status = r.code := by rw [← h]
      constructor
      · rw [hst]
        constructor
        · intro h0
          have := r.lower
          omega
        · intro hnone
          cases hnone
      · intro r' hrr
        cases hrr
        exact hst

/-- The std inet parser abstracted as always failing (its value on
`"unknown"` is irrelevant to the theorems). -/
def inetParseNone : String → Option Unit := fun _ => none

/-- A session with no client address and a written 200 response. -/
def sessionExample : SessionInfo Unit :=
  { clientAddr := none, method := "GET", uri := "/"
    responseWritten := some ⟨200, by decide, by decide⟩ }

/-- The log record the hook produces for `sessionExample`. -/
def logRecordExample : LogRecord Unit :=
  { clientAddr := SocketAddrM.unix "unknown", method := "GET", uri := "/"
    status := 200 }

/-- C8 witness: the sentinel property instantiated at a concrete session
with a 200 response and no client address. -/
theorem C8_witness :
    (logRecordExample.status = 0 ↔ sessionExample.responseWritten = none) ∧
      (∀ r : StatusCode, sessionExample.responseWritten = some r →
        logRecordExample.status = r.code) :=
  C8_status_sentinel inetParseNone sessionExample logRecordExample (by decide)

end Pinproxy
